import Mathlib

/-!
Verification of the recursive LaTeX inclusion resolver of `tex2word`
(`convert-whole-document.py`, function `process_tex_recursively`).

The resolver walks a root document, expands the four inclusion directives
`\input{...}`, `\include{...}`, `\subfile{...}`, `\InputIfFileExists{...}`,
strips structural commands from non-root fragments, wraps spliced content in
provenance comments, and guards against inclusion cycles with a visited set
copied into each recursive call.

Modelling conventions:
* text is `List Char` (Python `str`, code-point indexed);
* the filesystem is a finite association list from absolute, normalized
  POSIX paths to file contents; `os.path.abspath`/`os.path.normpath` are
  modelled as the identity on such paths, `os.path.join` and
  `os.path.dirname` by their POSIX string behaviour;
* side effects (file reads, diagnostics printed to stdout) are recorded in
  an explicit event trace; an `fsWrite` event exists in the event type but
  is never emitted by the resolver;
* the recursion of `process_tex_recursively` is presented with explicit
  fuel so that every definition is structurally recursive and computable;
  `fsLen + 1` fuel is always sufficient (proved below as a stabilization
  theorem: the result is independent of the fuel once the fuel exceeds the
  number of not-yet-visited filesystem entries).
-/

set_option maxRecDepth 4000

/-- Text, modelled as a list of characters (Python `str`). -/
abbrev Str := List Char

/-- Convenience conversion from Lean string literals. -/
def str (s : String) : Str := s.toList

/-- Python `str.strip()` whitespace set: space, tab, newline, carriage
return, vertical tab, form feed. -/
def pyWS (c : Char) : Bool :=
  c = ' ' ∨ c = '\t' ∨ c = '\n' ∨ c = '\r' ∨ c = '\x0b' ∨ c = '\x0c'

/-- Python `str.strip()`: drop leading and trailing whitespace. -/
def pyStrip (s : Str) : Str :=
  ((s.dropWhile pyWS).reverse.dropWhile pyWS).reverse

/-- `os.path.abspath` on an already absolute, normalized path (all paths in
the model are such). -/
def abspath (p : Str) : Str := p

/-- `os.path.normpath` on an already normalized path. -/
def normpath (p : Str) : Str := p

/-- POSIX `os.path.join(b, f)`. -/
def joinPath (b f : Str) : Str :=
  if f.head? = some '/' then f
  else if b = [] then f
  else if b.getLast? = some '/' then b ++ f
  else b ++ '/' :: f

/-- POSIX `os.path.dirname`: everything up to the last `/`, with trailing
slashes stripped unless the result consists only of slashes. -/
def dirname (p : Str) : Str :=
  let head := (p.reverse.dropWhile (fun c => decide (c ≠ '/'))).reverse
  if head.all (fun c => c = '/') then head
  else (head.reverse.dropWhile (fun c => decide (c = '/'))).reverse

/-- `filename.replace('\\', os.sep)` with POSIX `os.sep = '/'`. -/
def replBS (s : Str) : Str :=
  s.map (fun c => if c = '\\' then '/' else c)

/-- The filesystem: a finite map from absolute paths to file contents,
as an association list. -/
abbrev FS := List (Str × Str)

/-- Look up a path in the filesystem (first matching entry). -/
def lookupFs : FS → Str → Option Str
  | [], _ => none
  | (k, v) :: rest, p => if k = p then some v else lookupFs rest p

/-- `os.path.exists` restricted to the modelled files. -/
def existsFs (fs : FS) (p : Str) : Bool := (lookupFs fs p).isSome

/-- The paths present in the filesystem. -/
def fsKeys (fs : FS) : List Str := fs.map Prod.fst

/-- Number of filesystem entries whose path is not yet in the visited set:
the termination measure of the recursion. -/
def unvisited (fs : FS) (V : List Str) : Nat :=
  ((fsKeys fs).filter (fun k => decide (k ∉ V))).length

/-- The argument part of a directive match: the regex `([^}]+)\x7d` at the
start of `ts` — a maximal nonempty run of non-`\x7d` characters followed by
a closing brace. -/
def tryArg (ts : Str) : Option Str :=
  let a := ts.takeWhile (fun ch => decide (ch ≠ '\x7d'))
  if a = [] then none
  else if (ts.drop a.length).head? = some '\x7d' then some a else none

/-- `re.finditer` for a pattern `cmd\x7b([^}]+)\x7d`: scan left to right,
non-overlapping; produce `(start, end, argument)` triples with offsets into
the original text (`i` is the offset of the current suffix `s`).  The fuel
is always instantiated with the length of the scanned text, which suffices
because every step consumes at least one character. -/
def findMatchesAux (cmd : Str) : Nat → Str → Nat → List (Nat × Nat × Str)
  | 0, _, _ => []
  | gas + 1, s, i =>
    match s with
    | [] => []
    | c :: cs =>
      if (cmd ++ ['\x7b']) <+: (c :: cs) then
        match tryArg ((c :: cs).drop (cmd.length + 1)) with
        | some arg =>
          let len := cmd.length + 1 + arg.length + 1
          (i, i + len, arg) :: findMatchesAux cmd gas ((c :: cs).drop len) (i + len)
        | none => findMatchesAux cmd gas cs (i + 1)
      else
        findMatchesAux cmd gas cs (i + 1)

/-- All matches of one directive pattern in a text, with source offsets. -/
def findMatches (cmd : Str) (s : Str) : List (Nat × Nat × Str) :=
  findMatchesAux cmd s.length s 0

/-- The four directive patterns, in the order the source processes them:
`\input`, `\include`, `\subfile`, `\InputIfFileExists`. -/
def cmdNames : List Str :=
  [str "\\input", str "\\include", str "\\subfile", str "\\InputIfFileExists"]

/-- One pass of `re.sub(key + '.*?\n', '', s)` for a key without newlines:
at each position, if `key` matches and a newline occurs after it, delete
from the occurrence through the first following newline and continue after
it; otherwise keep the character and continue.  Fuel is instantiated with
the length of the text. -/
def subToNlAux (key : Str) : Nat → Str → Str
  | 0, s => s
  | gas + 1, s =>
    match s with
    | [] => []
    | c :: cs =>
      if key <+: (c :: cs) ∧ '\n' ∈ (c :: cs).drop key.length then
        subToNlAux key gas
          ((((c :: cs).drop key.length).dropWhile (fun ch => decide (ch ≠ '\n'))).drop 1)
      else
        c :: subToNlAux key gas cs

/-- `re.sub(key + '.*?\n', '', s)`. -/
def subToNl (key : Str) (s : Str) : Str := subToNlAux key s.length s

/-- The structural commands stripped from non-root fragments, in source
order: document class, package import, document begin/end, title
generation, table of contents. -/
def structuralKeys : List Str :=
  [str "\\documentclass", str "\\usepackage", str "\\begin\x7bdocument\x7d",
   str "\\end\x7bdocument\x7d", str "\\maketitle", str "\\tableofcontents"]

/-- The six structural `re.sub` passes applied in order. -/
def stripStructural (s : Str) : Str :=
  structuralKeys.foldl (fun acc k => subToNl k acc) s

/-- Append `.tex` if the name does not already end with it (source lines
119–120: `if not filename.endswith('.tex'): filename += '.tex'`). -/
def ensureTex (fn : Str) : Str :=
  if str ".tex" <:+ fn then fn else fn ++ str ".tex"

/-- Derive the target filename from a directive argument:
`match.group(1).strip()` followed by the `.tex` suffix rule. -/
def deriveFilename (rawArg : Str) : Str := ensureTex (pyStrip rawArg)

/-- Resolve the target path of a directive (source lines 122–136): names
with a path separator are base-directory relative; other names are first
tried in the current fragment's directory, falling back to the base
directory. -/
def resolveTarget (fs : FS) (baseF curDir fn : Str) : Str :=
  if '/' ∈ fn ∨ '\\' ∈ fn then normpath (joinPath baseF (replBS fn))
  else
    let p1 := joinPath curDir fn
    if existsFs fs p1 then normpath p1 else normpath (joinPath baseF fn)

/-- The provenance wrapper placed around non-empty non-root content. -/
def wrapInclude (fn c : Str) : Str :=
  str "\n% ========== Included from: " ++ fn ++ str " ==========\n" ++ c ++
  str "\n% ========== End of: " ++ fn ++ str " ==========\n"

/-- Cleanup of recursed content (source lines 144–157): the root file is
spliced untouched; other fragments have the structural commands stripped,
surrounding whitespace trimmed, and non-empty remainders wrapped in
provenance markers. -/
def cleanupContent (mainP tp fn c : Str) : Str :=
  if abspath tp = abspath mainP then c
  else
    let c2 := pyStrip (stripStructural c)
    if c2 = [] then c2 else wrapInclude fn c2

/-- Python `result[:start] + repl + result[stop:]`. -/
def splice (s : Str) (start stop : Nat) (repl : Str) : Str :=
  s.take start ++ repl ++ s.drop stop

/-- Observable side effects of the resolver: successful file reads, read
failures, diagnostics for processed and missing inclusions.  `fsWrite`
exists in the type so that the absence of writes is expressible; the
resolver never emits it. -/
inductive Event where
  | fsRead : Str → Event
  | warnRead : Str → Event
  | fsWrite : Str → Event
  | procInclude : Str → Str → Event
  | warnMissing : Str → Str → Event
deriving DecidableEq, Repr

/-- Recognizer for filesystem-write events. -/
def Event.isWrite : Event → Bool
  | .fsWrite _ => true
  | _ => false

/-- The resolver's result: the produced text and the trace of side
effects. -/
structure Res where
  text : Str
  trace : List Event
deriving DecidableEq, Repr

/-- The match-splicing loop of `process_tex_recursively` (source lines
110–175): for each match, derive the filename, resolve the target, and
either recurse (through `rec`, the resolver at the current visited set),
clean up, and splice the expansion at the match's recorded offsets, or
leave the text unchanged and record a missing-file diagnostic. -/
def processOps (rec : List Str → Str → Res) (fs : FS) (mainP baseF : Str)
    (V : List Str) (curDir : Str) : Str → List (Nat × Nat × Str) → Res
  | result, [] => ⟨result, []⟩
  | result, (st, en, arg) :: rest =>
    let fn := deriveFilename arg
    let tp := resolveTarget fs baseF curDir fn
    if existsFs fs tp then
      let r := rec V tp
      let cleaned := cleanupContent mainP tp fn r.text
      let rr := processOps rec fs mainP baseF V curDir (splice result st en cleaned) rest
      ⟨rr.text, Event.procInclude fn tp :: (r.trace ++ rr.trace)⟩
    else
      let rr := processOps rec fs mainP baseF V curDir result rest
      ⟨rr.text, Event.warnMissing fn tp :: rr.trace⟩

/-- Fueled form of `process_tex_recursively` (source lines 82–177): return
empty on a visited path, otherwise record the path in the visited set, read
the fragment (empty contribution with a diagnostic if unreadable), compute
the matches of the four patterns against the original text — each kind's
match list reversed, kinds in source order — and run the splicing loop;
every recursive call receives the extended visited set (the copy the source
passes into each call). -/
def resolveFuel : Nat → FS → Str → Str → List Str → Str → Res
  | 0, _, _, _, _, _ => ⟨[], []⟩
  | fuel + 1, fs, mainP, baseF, V, p =>
    if abspath p ∈ V then ⟨[], []⟩
    else
      match lookupFs fs p with
      | none => ⟨[], [Event.warnRead p]⟩
      | some content =>
        let ops := (cmdNames.map (fun c => (findMatches c content).reverse)).flatten
        let r := processOps (resolveFuel fuel fs mainP baseF) fs mainP baseF
          (abspath p :: V) (dirname p) content ops
        ⟨r.text, Event.fsRead p :: r.trace⟩

/-- `process_tex_recursively(tex_file_path, base_folder, processed_files)`
with the (always sufficient) fuel `fs.length + 1`. -/
def process_tex_recursively (fs : FS) (mainP baseF : Str) (V : List Str) (p : Str) : Res :=
  resolveFuel (fs.length + 1) fs mainP baseF V p

/-- The top-level resolution of `create_combined_tex`: resolve the main
file against the base folder with an empty visited set. -/
def resolveDoc (fs : FS) (mainP baseF : Str) : Res :=
  process_tex_recursively fs mainP baseF [] mainP

/-- The merged text of the top-level resolution. -/
def resolveText (fs : FS) (mainP baseF : Str) : Str := (resolveDoc fs mainP baseF).text

/-- Number of occurrences of `pat` in `s` (positions at which `pat` is a
prefix of the corresponding suffix). -/
def countOcc (pat s : Str) : Nat :=
  ((List.range (s.length + 1)).filter (fun i => decide (pat <+: s.drop i))).length

/-- A resolver stub contributing fixed non-empty text, used to instantiate
lemmas about the splicing loop. -/
def recBody : List Str → Str → Res := fun _ _ => ⟨str "BODY", []⟩

/-- A resolver stub contributing empty text. -/
def recEmpty : List Str → Str → Res := fun _ _ => ⟨[], []⟩

/-- Filesystem exercising cross-kind splicing: the main file holds an
`\input` directive, one plain character, then an `\include` directive;
`a.tex` is empty (so its expansion is empty and nine characters shorter
than the directive), `b.tex` is non-empty. -/
def exFsC1 : FS :=
  [(str "/d/main.tex", str "\\input\x7ba\x7d" ++ str "X" ++ str "\\include\x7bb\x7d"),
   (str "/d/a.tex", str ""),
   (str "/d/b.tex", str "B")]

/-- A two-file inclusion cycle: `A.tex` includes `B.tex` and vice versa. -/
def exFsC2 : FS :=
  [(str "/d/A.tex", str "\\input\x7bB\x7d"),
   (str "/d/B.tex", str "\\input\x7bA\x7d")]

/-- Same-directory precedence scenario: the fragment at
`/base/Sections/a.tex` says `\input\x7bb\x7d` while both
`/base/Sections/b.tex` and `/base/b.tex` exist. -/
def exFsC3 : FS :=
  [(str "/base/main.tex", str "\\input\x7bSections/a\x7d"),
   (str "/base/Sections/a.tex", str "\\input\x7bb\x7d"),
   (str "/base/Sections/b.tex", str "LOCAL"),
   (str "/base/b.tex", str "GLOBAL")]

/-- A non-root fragment whose document-end marker is the last line and is
not newline-terminated. -/
def exFsC4 : FS :=
  [(str "/d/main.tex", str "\\input\x7bch\x7d"),
   (str "/d/ch.tex", str "X\n" ++ str "\\end\x7bdocument\x7d")]

/-- A root file whose only structural line carries no directive; used to
show the root's structural lines pass through untouched. -/
def exFsC4w : FS :=
  [(str "/m.tex", str "\\documentclass\x7ba\x7d\nhi")]

/-- A root file whose own document-class line follows two directives of
different kinds; the earlier kind's shorter expansion shifts the later
kind's stale offsets across the root's structural line. -/
def exFsC4r : FS :=
  [(str "/d/main.tex", str "\\input\x7ba\x7d" ++ str "X" ++
      str "\\include\x7bb\x7d" ++ str "\\documentclass\x7bc\x7d\n"),
   (str "/d/a.tex", str ""),
   (str "/d/b.tex", str "B")]

/-- A root file whose single directive's target exists nowhere. -/
def exFsC5 : FS := [(str "/d/main.tex", str "A \\input\x7bmissing\x7d B")]

/-- A root file including the same fragment twice. -/
def exFsC6 : FS :=
  [(str "/d/main.tex", str "\\input\x7bc\x7d and \\input\x7bc\x7d"),
   (str "/d/c.tex", str "CCC")]

/-- A root file including a fragment exactly once. -/
def exFsC6s : FS :=
  [(str "/d/main.tex", str "\\input\x7bc\x7d"),
   (str "/d/c.tex", str "CCC")]

/-- `\include\x7bsectionA\x7d` variant of the suffix scenario. -/
def exFsC7a : FS :=
  [(str "/d/main.tex", str "\\include\x7bsectionA\x7d"),
   (str "/d/sectionA.tex", str "Hello")]

/-- `\include\x7bsectionA.tex\x7d` variant of the suffix scenario. -/
def exFsC7b : FS :=
  [(str "/d/main.tex", str "\\include\x7bsectionA.tex\x7d"),
   (str "/d/sectionA.tex", str "Hello")]

/-- A root file containing a directive with an empty argument. -/
def exFsC9 : FS := [(str "/d/main.tex", str "A\\input\x7b\x7dB")]

/-- Filesystem with one target file, used to instantiate splicing-loop
lemmas on a directive whose target exists. -/
def exFsT : FS := [(str "/d/t.tex", str "x")]

/-- A successful lookup means the path is among the filesystem's keys. -/
theorem lookupFs_mem_keys (fs : FS) (p c : Str) (h : lookupFs fs p = some c) :
    p ∈ fsKeys fs := by
  induction fs with
  | nil => cases h
  | cons kv rest ih =>
    obtain ⟨k, v⟩ := kv
    simp only [lookupFs] at h
    by_cases hk : k = p
    · subst hk
      exact List.mem_cons_self _ _
    · rw [if_neg hk] at h
      exact List.mem_cons_of_mem _ (ih h)

/-- Filtering with a stronger predicate keeps at most as many elements. -/
theorem length_filter_le_of_imp {α : Type} (f g : α → Bool) (l : List α)
    (h : ∀ x, f x = true → g x = true) :
    (l.filter f).length ≤ (l.filter g).length := by
  induction l with
  | nil => simp
  | cons a t ih =>
    simp only [List.filter_cons]
    by_cases hf : f a = true
    · rw [if_pos hf, if_pos (h a hf)]
      simpa using ih
    · rw [if_neg hf]
      by_cases hg : g a = true
      · rw [if_pos hg]
        exact Nat.le_succ_of_le ih
      · rw [if_neg hg]
        exact ih

/-- Filtering a list by exclusion from a larger set drops strictly more
once a present element joins the set. -/
theorem length_filter_notMem_cons_lt (l : List Str) (V : List Str) (p : Str)
    (hk : p ∈ l) (hv : p ∉ V) :
    (l.filter (fun k => decide (k ∉ p :: V))).length <
      (l.filter (fun k => decide (k ∉ V))).length := by
  have himp : ∀ x : Str, decide (x ∉ p :: V) = true → decide (x ∉ V) = true := by
    intro x hx
    simp only [decide_eq_true_eq, List.mem_cons, not_or] at hx ⊢
    exact hx.2
  induction l with
  | nil => cases hk
  | cons a t ih =>
    simp only [List.filter_cons]
    rcases List.mem_cons.mp hk with rfl | hkt
    · rw [if_neg (by simp), if_pos (by simpa using hv)]
      have := length_filter_le_of_imp
        (fun k => decide (k ∉ p :: V)) (fun k => decide (k ∉ V)) t himp
      simp only [List.length_cons]
      omega
    · by_cases hap : a = p
      · subst hap
        rw [if_neg (by simp), if_pos (by simpa using hv)]
        have := length_filter_le_of_imp
          (fun k => decide (k ∉ a :: V)) (fun k => decide (k ∉ V)) t himp
        simp only [List.length_cons]
        omega
      · have heq : (decide (a ∉ p :: V)) = (decide (a ∉ V)) := by
          simp [List.mem_cons, hap]
        rw [heq]
        by_cases ha : decide (a ∉ V) = true
        · rw [if_pos ha, if_pos ha]
          simpa using ih hkt
        · rw [if_neg ha, if_neg ha]
          exact ih hkt

/-- Visiting a present, not-yet-visited path strictly decreases the number
of unvisited filesystem entries. -/
theorem unvisited_cons_lt (fs : FS) (V : List Str) (p : Str)
    (hk : p ∈ fsKeys fs) (hv : p ∉ V) :
    unvisited fs (p :: V) < unvisited fs V :=
  length_filter_notMem_cons_lt (fsKeys fs) V p hk hv

/-- The splicing loop only calls the resolver at the visited set it was
handed, so resolvers agreeing there yield identical results. -/
theorem processOps_congr (rec1 rec2 : List Str → Str → Res) (fs : FS)
    (mainP baseF : Str) (V : List Str) (curDir : Str)
    (h : ∀ q, rec1 V q = rec2 V q) :
    ∀ (result : Str) (ops : List (Nat × Nat × Str)),
      processOps rec1 fs mainP baseF V curDir result ops =
        processOps rec2 fs mainP baseF V curDir result ops := by
  intro result ops
  induction ops generalizing result with
  | nil => rfl
  | cons op rest ih =>
    obtain ⟨st, en, arg⟩ := op
    simp only [processOps]
    by_cases hex :
        existsFs fs (resolveTarget fs baseF curDir (deriveFilename arg)) = true
    · simp only [hex, if_true, h, ih]
    · simp only [Bool.not_eq_true] at hex
      simp only [hex, Bool.false_eq_true, if_false, ih]

/-- Fuel stabilization: once the fuel exceeds the number of unvisited
filesystem entries, the result of `resolveFuel` no longer depends on it —
the recursion of `process_tex_recursively` terminates within that bound. -/
theorem resolveFuel_stable :
    ∀ (n f1 f2 : Nat) (fs : FS) (mainP baseF : Str) (V : List Str) (p : Str),
      unvisited fs V ≤ n → unvisited fs V < f1 → unvisited fs V < f2 →
      resolveFuel f1 fs mainP baseF V p = resolveFuel f2 fs mainP baseF V p := by
  intro n
  induction n with
  | zero =>
    intro f1 f2 fs mainP baseF V p hn h1 h2
    obtain ⟨a, rfl⟩ : ∃ a, f1 = a + 1 := ⟨f1 - 1, by omega⟩
    obtain ⟨b, rfl⟩ : ∃ b, f2 = b + 1 := ⟨f2 - 1, by omega⟩
    simp only [resolveFuel]
    by_cases hmem : abspath p ∈ V
    · rw [if_pos hmem, if_pos hmem]
    · rw [if_neg hmem, if_neg hmem]
      cases hl : lookupFs fs p with
      | none => rfl
      | some content =>
        exfalso
        have hk : p ∈ fsKeys fs := lookupFs_mem_keys fs p content hl
        have : p ∈ (fsKeys fs).filter (fun k => decide (k ∉ V)) :=
          List.mem_filter.mpr ⟨hk, by simpa using hmem⟩
        have hne : (fsKeys fs).filter (fun k => decide (k ∉ V)) ≠ [] :=
          List.ne_nil_of_mem this
        have : 0 < unvisited fs V := by
          unfold unvisited
          exact List.length_pos.mpr hne
        omega
  | succ n ih =>
    intro f1 f2 fs mainP baseF V p hn h1 h2
    obtain ⟨a, rfl⟩ : ∃ a, f1 = a + 1 := ⟨f1 - 1, by omega⟩
    obtain ⟨b, rfl⟩ : ∃ b, f2 = b + 1 := ⟨f2 - 1, by omega⟩
    simp only [resolveFuel]
    by_cases hmem : abspath p ∈ V
    · rw [if_pos hmem, if_pos hmem]
    · rw [if_neg hmem, if_neg hmem]
      cases hl : lookupFs fs p with
      | none => rfl
      | some content =>
        have hk : p ∈ fsKeys fs := lookupFs_mem_keys fs p content hl
        have hpv : p ∉ V := by simpa [abspath] using hmem
        have hdec : unvisited fs (p :: V) < unvisited fs V :=
          unvisited_cons_lt fs V p hk hpv
        have hrec : ∀ q,
            resolveFuel a fs mainP baseF (abspath p :: V) q =
              resolveFuel b fs mainP baseF (abspath p :: V) q := by
          intro q
          apply ih a b fs mainP baseF (abspath p :: V) q
          · show unvisited fs (abspath p :: V) ≤ n
            simp only [abspath]
            omega
          · show unvisited fs (abspath p :: V) < a
            simp only [abspath]
            omega
          · show unvisited fs (abspath p :: V) < b
            simp only [abspath]
            omega
        simp only [processOps_congr _ _ fs mainP baseF (abspath p :: V) (dirname p) hrec]

/-- The splicing loop emits no write events when the resolver it calls
emits none. -/
theorem processOps_filter_write (rec : List Str → Str → Res) (fs : FS)
    (mainP baseF : Str) (V : List Str) (curDir : Str)
    (h : ∀ q, ((rec V q).trace.filter Event.isWrite) = []) :
    ∀ (result : Str) (ops : List (Nat × Nat × Str)),
      ((processOps rec fs mainP baseF V curDir result ops).trace.filter
        Event.isWrite) = [] := by
  intro result ops
  induction ops generalizing result with
  | nil => rfl
  | cons op rest ih =>
    obtain ⟨st, en, arg⟩ := op
    simp only [processOps]
    by_cases hex :
        existsFs fs (resolveTarget fs baseF curDir (deriveFilename arg)) = true
    · simp [hex, List.filter_cons, List.filter_append, Event.isWrite, h, ih]
    · simp only [Bool.not_eq_true] at hex
      simp [hex, List.filter_cons, Event.isWrite, ih]

/-- The resolver emits no write events at any fuel. -/
theorem resolveFuel_filter_write :
    ∀ (fuel : Nat) (fs : FS) (mainP baseF : Str) (V : List Str) (p : Str),
      ((resolveFuel fuel fs mainP baseF V p).trace.filter Event.isWrite) = [] := by
  intro fuel
  induction fuel with
  | zero => intro fs mainP baseF V p; rfl
  | succ fuel ih =>
    intro fs mainP baseF V p
    simp only [resolveFuel]
    by_cases hmem : abspath p ∈ V
    · simp [hmem]
    · rw [if_neg hmem]
      cases hl : lookupFs fs p with
      | none => simp [Event.isWrite]
      | some content =>
        have hp := processOps_filter_write (resolveFuel fuel fs mainP baseF) fs
          mainP baseF (abspath p :: V) (dirname p)
          (fun q => ih fs mainP baseF (abspath p :: V) q) content
          ((cmdNames.map (fun c => (findMatches c content).reverse)).flatten)
        simp [List.filter_cons, Event.isWrite, hp]

/-- A matched directive argument is never empty. -/
theorem tryArg_ne_nil (ts a : Str) (h : tryArg ts = some a) : a ≠ [] := by
  unfold tryArg at h
  by_cases h1 : ts.takeWhile (fun ch => decide (ch ≠ '\x7d')) = []
  · rw [if_pos h1] at h
    cases h
  · rw [if_neg h1] at h
    by_cases h2 : (ts.drop (ts.takeWhile
        (fun ch => decide (ch ≠ '\x7d'))).length).head? = some '\x7d'
    · rw [if_pos h2] at h
      have := Option.some.inj h
      rw [← this]
      exact h1
    · rw [if_neg h2] at h
      cases h

/-- Every match produced by the scanner has a nonempty argument: the
patterns require at least one non-closing-brace character between the
braces. -/
theorem findMatchesAux_args_nonempty (cmd : Str) :
    ∀ (gas : Nat) (s : Str) (i : Nat),
      (findMatchesAux cmd gas s i).all (fun m => !m.2.2.isEmpty) = true := by
  intro gas
  induction gas with
  | zero => intro s i; rfl
  | succ gas ih =>
    intro s i
    cases s with
    | nil => rfl
    | cons c cs =>
      simp only [findMatchesAux]
      by_cases hpre : (cmd ++ ['\x7b']) <+: (c :: cs)
      · rw [if_pos hpre]
        cases htry : tryArg ((c :: cs).drop (cmd.length + 1)) with
        | none => exact ih cs (i + 1)
        | some arg =>
          simp only [List.all_cons, Bool.and_eq_true]
          constructor
          · have := tryArg_ne_nil _ _ htry
            simp [List.isEmpty_iff, this]
          · exact ih _ _
      · rw [if_neg hpre]
        exact ih cs (i + 1)

/-- The result of `subToNlAux` does not depend on the fuel once the fuel
covers the length of the text. -/
theorem subToNlAux_gasCongr (key : Str) :
    ∀ (n : Nat) (s : Str) (g g' : Nat), s.length ≤ n → s.length ≤ g →
      s.length ≤ g' → subToNlAux key g s = subToNlAux key g' s := by
  intro n
  induction n with
  | zero =>
    intro s g g' hn _ _
    have hs : s = [] := List.eq_nil_of_length_eq_zero (Nat.le_zero.mp hn)
    subst hs
    cases g <;> cases g' <;> rfl
  | succ n ih =>
    intro s g g' hn hg hg'
    cases s with
    | nil => cases g <;> cases g' <;> rfl
    | cons c cs =>
      have hlen : (c :: cs).length = cs.length + 1 := List.length_cons c cs
      obtain ⟨a, rfl⟩ : ∃ a, g = a + 1 := ⟨g - 1, by omega⟩
      obtain ⟨b, rfl⟩ : ∃ b, g' = b + 1 := ⟨g' - 1, by omega⟩
      simp only [subToNlAux]
      by_cases hcond : key <+: (c :: cs) ∧ '\n' ∈ (c :: cs).drop key.length
      · rw [if_pos hcond, if_pos hcond]
        have hnn : ((c :: cs).drop key.length).dropWhile
            (fun ch => decide (ch ≠ '\n')) ≠ [] := by
          intro hnil
          have := (List.dropWhile_eq_nil_iff).mp hnil '\n' hcond.2
          simp at this
        have hlt : ((((c :: cs).drop key.length).dropWhile
            (fun ch => decide (ch ≠ '\n'))).drop 1).length ≤ cs.length := by
          have h1 : (((c :: cs).drop key.length).dropWhile
              (fun ch => decide (ch ≠ '\n'))).length ≤
              ((c :: cs).drop key.length).length :=
            (List.dropWhile_sublist _).length_le
          have h2 : ((c :: cs).drop key.length).length ≤ (c :: cs).length :=
            by simp [List.length_drop]
          have h3 : 0 < (((c :: cs).drop key.length).dropWhile
              (fun ch => decide (ch ≠ '\n'))).length := List.length_pos.mpr hnn
          simp only [List.length_drop]
          omega
        exact ih _ a b (by omega) (by omega) (by omega)
      · rw [if_neg hcond, if_neg hcond]
        rw [ih cs a b (by omega) (by omega) (by omega)]

/-- Dropping up to the first newline past a newline-free block lands
exactly on that newline. -/
theorem dropWhile_append_newline (v w : Str) (hv : '\n' ∉ v) :
    (v ++ '\n' :: w).dropWhile (fun ch => decide (ch ≠ '\n')) = '\n' :: w := by
  induction v with
  | nil => simp [List.dropWhile]
  | cons a t ih =>
    have ha : a ≠ '\n' := fun h => hv (h ▸ List.mem_cons_self a t)
    have ht : '\n' ∉ t := fun h => hv (List.mem_cons_of_mem a h)
    simp only [List.cons_append, List.dropWhile_cons]
    rw [if_pos (by simpa using ha)]
    exact ih ht

/-- If no occurrence of the key is followed by a later newline, the
structural-sub pass leaves the text unchanged (in particular a key
occurrence on an unterminated final line is retained). -/
theorem subToNlAux_id (key : Str) :
    ∀ (g : Nat) (s : Str), s.length ≤ g →
      (∀ i ∈ List.range (s.length + 1),
        key <+: s.drop i → '\n' ∉ s.drop (i + key.length)) →
      subToNlAux key g s = s := by
  intro g
  induction g with
  | zero => intro s _ _; rfl
  | succ g ih =>
    intro s hl hyp
    cases s with
    | nil => rfl
    | cons c cs =>
      simp only [subToNlAux]
      rw [if_neg]
      · congr 1
        apply ih cs (by simp only [List.length_cons] at hl; omega)
        intro i hi hpre
        have hi' : i + 1 ∈ List.range ((c :: cs).length + 1) := by
          simp only [List.mem_range, List.length_cons] at hi ⊢
          omega
        have h2 := hyp (i + 1) hi' (by simpa [List.drop_succ_cons] using hpre)
        have he : i + 1 + key.length = (i + key.length) + 1 := by omega
        rw [he, List.drop_succ_cons] at h2
        exact h2
      · rintro ⟨hpre, hnl⟩
        have h0 := hyp 0 (by simp) (by simpa using hpre)
        rw [Nat.zero_add] at h0
        exact h0 hnl

/-- A first key occurrence followed (after a newline-free stretch) by a
newline is stripped from the occurrence through that newline; the text
before the occurrence — including earlier text on the same line — is
retained. -/
theorem subToNlAux_strip_first (key v w : Str) (hv : '\n' ∉ v) :
    ∀ (u : Str) (g : Nat), (u ++ (key ++ (v ++ '\n' :: w))).length ≤ g →
      (∀ i ∈ List.range u.length,
        ¬ key <+: (u ++ (key ++ (v ++ '\n' :: w))).drop i) →
      subToNlAux key g (u ++ (key ++ (v ++ '\n' :: w))) = u ++ subToNl key w := by
  intro u
  induction u with
  | nil =>
    intro g hg hu
    simp only [List.nil_append] at hg ⊢
    have hlen : (key ++ (v ++ '\n' :: w)).length =
        key.length + (v.length + (w.length + 1)) := by
      simp [List.length_append]
    have hne : key ++ (v ++ '\n' :: w) ≠ [] := by
      apply List.ne_nil_of_length_pos
      omega
    obtain ⟨c, cs, hcc⟩ := List.exists_cons_of_ne_nil hne
    obtain ⟨a, rfl⟩ : ∃ a, g = a + 1 := ⟨g - 1, by omega⟩
    rw [hcc]
    simp only [subToNlAux]
    rw [if_pos]
    · have hdrop : (c :: cs).drop key.length = v ++ '\n' :: w := by
        rw [← hcc]
        exact List.drop_left key (v ++ '\n' :: w)
      rw [hdrop, dropWhile_append_newline v w hv]
      simp only [List.drop_succ_cons, List.drop_zero]
      apply subToNlAux_gasCongr key w.length w a w.length le_rfl _ le_rfl
      rw [hlen] at hg
      omega
    · constructor
      · rw [← hcc]
        exact List.prefix_append key (v ++ '\n' :: w)
      · have hdrop : (c :: cs).drop key.length = v ++ '\n' :: w := by
          rw [← hcc]
          exact List.drop_left key (v ++ '\n' :: w)
        rw [hdrop]
        exact List.mem_append_right v (List.mem_cons_self _ _)
  | cons c u' ih =>
    intro g hg hu
    have hlen : ((c :: u') ++ (key ++ (v ++ '\n' :: w))).length =
        u'.length + (key ++ (v ++ '\n' :: w)).length + 1 := by
      simp [List.length_append]
    obtain ⟨a, rfl⟩ : ∃ a, g = a + 1 := ⟨g - 1, by omega⟩
    simp only [List.cons_append, subToNlAux]
    rw [if_neg]
    · rw [ih a (by simp only [List.cons_append, List.length_cons] at hg; omega)]
      intro i hi
      have hi' : i + 1 ∈ List.range (c :: u').length := by
        simp only [List.mem_range, List.length_cons] at hi ⊢
        omega
      have := hu (i + 1) hi'
      simpa [List.cons_append, List.drop_succ_cons] using this
    · rintro ⟨hpre, _⟩
      have h0 := hu 0 (by simp)
      rw [List.drop_zero] at h0
      exact h0 (by simpa [List.cons_append] using hpre)

/-- A root fragment containing no directive match is emitted verbatim:
its structural lines are preserved. -/
theorem resolveText_root_verbatim (fs : FS) (mainP baseF content : Str)
    (hl : lookupFs fs mainP = some content)
    (hall : ∀ c ∈ cmdNames, findMatches c content = []) :
    resolveText fs mainP baseF = content := by
  have h0 := hall (str "\\input") (by simp [cmdNames])
  have h2 := hall (str "\\include") (by simp [cmdNames])
  have h3 := hall (str "\\subfile") (by simp [cmdNames])
  have h4 := hall (str "\\InputIfFileExists") (by simp [cmdNames])
  unfold resolveText resolveDoc process_tex_recursively
  simp only [resolveFuel]
  rw [if_neg (by simp)]
  rw [hl]
  simp only [cmdNames, List.map_cons, List.map_nil, h0, h2, h3, h4,
    List.reverse_nil, List.flatten, List.append_nil, processOps]

/-- Claim C1 (refuted; the code diverges from it): the claim says matches
of all four directive kinds are spliced from one offset-tagged list in
descending start order, so that each directive occurrence is replaced at
its original byte range with everything outside untouched.  The source
instead runs the four kinds in separate sequential passes whose offsets
all refer to the original text while splices hit the already-modified
text: on `exFsC1` (an `\input` whose expansion is shorter than the
directive, followed by the character `X` and an `\include`), the produced
text keeps the stale-offset garbage `X\include\x7b` and loses `b\x7d`,
instead of the in-place result `X` followed by the wrapped expansion. -/
theorem c1_cross_kind_offsets_codeBug :
    resolveText exFsC1 (str "/d/main.tex") (str "/d") =
      str "X\\include\x7b" ++ wrapInclude (str "b.tex") (str "B") ∧
    resolveText exFsC1 (str "/d/main.tex") (str "/d") ≠
      str "X" ++ wrapInclude (str "b.tex") (str "B") := by
  constructor
  · decide
  · decide

/-- Claim C2 (confirmed): for every inclusion graph containing a cycle the
resolver terminates — the result stabilizes as soon as the fuel exceeds
the number of unvisited filesystem entries — and a fragment whose absolute
path is already in the branch's visited set contributes empty text
immediately; on the concrete two-file cycle the whole output is empty and
deterministic. -/
theorem c2_cycle_termination :
    (∀ (fuel : Nat) (fs : FS) (mainP baseF : Str) (V : List Str) (p : Str),
        abspath p ∈ V →
        resolveFuel fuel fs mainP baseF V p = ⟨[], []⟩) ∧
    (∀ (f1 f2 : Nat) (fs : FS) (mainP baseF : Str) (V : List Str) (p : Str),
        unvisited fs V < f1 → unvisited fs V < f2 →
        resolveFuel f1 fs mainP baseF V p = resolveFuel f2 fs mainP baseF V p) ∧
    resolveText exFsC2 (str "/d/A.tex") (str "/d") = [] := by
  refine ⟨?_, ?_, by decide⟩
  · intro fuel fs mainP baseF V p h
    cases fuel with
    | zero => rfl
    | succ fuel => simp [resolveFuel, h]
  · intro f1 f2 fs mainP baseF V p h1 h2
    exact resolveFuel_stable (unvisited fs V) f1 f2 fs mainP baseF V p le_rfl h1 h2

/-- Witness for C2: the visited-path rule and the fuel stabilization at
concrete inputs. -/
theorem c2_cycle_termination_witness :
    resolveFuel 7 exFsC2 (str "/d/A.tex") (str "/d") [str "/d/B.tex"]
        (str "/d/B.tex") = ⟨[], []⟩ ∧
    resolveFuel 3 exFsC2 (str "/d/A.tex") (str "/d") [] (str "/d/A.tex") =
      resolveFuel 4 exFsC2 (str "/d/A.tex") (str "/d") [] (str "/d/A.tex") :=
  ⟨c2_cycle_termination.1 7 exFsC2 (str "/d/A.tex") (str "/d")
      [str "/d/B.tex"] (str "/d/B.tex") (by decide),
   c2_cycle_termination.2.1 3 4 exFsC2 (str "/d/A.tex") (str "/d") []
      (str "/d/A.tex") (by decide) (by decide)⟩

/-- Claim C3 (confirmed): an argument without a path separator is resolved
against the current fragment's directory first and falls back to the base
directory only when that candidate does not exist; an argument with a
separator is resolved against the base directory; on the concrete
two-candidate filesystem the same-directory file `LOCAL` is selected and
the base-directory file `GLOBAL` is not. -/
theorem c3_path_resolution_precedence :
    (∀ (fs : FS) (baseF curDir fn : Str),
        ¬ ('/' ∈ fn ∨ '\\' ∈ fn) →
        existsFs fs (joinPath curDir fn) = true →
        resolveTarget fs baseF curDir fn = joinPath curDir fn) ∧
    (∀ (fs : FS) (baseF curDir fn : Str),
        ¬ ('/' ∈ fn ∨ '\\' ∈ fn) →
        existsFs fs (joinPath curDir fn) = false →
        resolveTarget fs baseF curDir fn = joinPath baseF fn) ∧
    (∀ (fs : FS) (baseF curDir fn : Str),
        ('/' ∈ fn ∨ '\\' ∈ fn) →
        resolveTarget fs baseF curDir fn = joinPath baseF (replBS fn)) ∧
    (str "LOCAL" <:+: resolveText exFsC3 (str "/base/main.tex") (str "/base")) ∧
    ¬ (str "GLOBAL" <:+: resolveText exFsC3 (str "/base/main.tex") (str "/base")) := by
  refine ⟨?_, ?_, ?_, by decide, by decide⟩
  · intro fs baseF curDir fn hsep hex
    simp only [resolveTarget, normpath]
    rw [if_neg hsep, if_pos hex]
  · intro fs baseF curDir fn hsep hex
    simp only [resolveTarget, normpath]
    rw [if_neg hsep, if_neg (by simp [hex])]
  · intro fs baseF curDir fn hsep
    simp only [resolveTarget, normpath]
    rw [if_pos hsep]

/-- Witness for C3: same-directory precedence at the concrete scenario of
the claim. -/
theorem c3_path_resolution_precedence_witness :
    resolveTarget exFsC3 (str "/base") (str "/base/Sections") (str "b.tex") =
      joinPath (str "/base/Sections") (str "b.tex") :=
  c3_path_resolution_precedence.1 exFsC3 (str "/base") (str "/base/Sections")
    (str "b.tex") (by decide) (by decide)

/-- Counterexample to claim C4: the structural patterns match the
occurrence through the next newline, not a full line, so a document-end
marker on an unterminated final line of a non-root fragment survives into
the merged output. -/
theorem c4_full_line_strip_counterexample :
    str "\\end\x7bdocument\x7d" <:+:
      resolveText exFsC4 (str "/d/main.tex") (str "/d") := by
  decide

/-- Claim C4 as amended: in a non-root fragment each structural-command
occurrence that is followed by a newline is stripped from the occurrence
through that first newline (text before it on the same line survives); an
occurrence with no following newline is retained; the root fragment's
content is never subjected to this stripping or wrapping — the cleanup
step passes content through untouched whenever the resolved target is the
root itself, and a root without any directive match is emitted verbatim —
but root lines are not preserved unconditionally: directive splicing,
including the stale-offset defect of C1, can rewrite root text, as on
`exFsC4r` where the root's own document-class line is destroyed. -/
theorem c4_structural_strip_amended :
    (∀ (key s : Str),
        (∀ i ∈ List.range (s.length + 1),
          key <+: s.drop i → '\n' ∉ s.drop (i + key.length)) →
        subToNl key s = s) ∧
    (∀ (key u v w : Str), '\n' ∉ v →
        (∀ i ∈ List.range u.length,
          ¬ key <+: (u ++ (key ++ (v ++ '\n' :: w))).drop i) →
        subToNl key (u ++ (key ++ (v ++ '\n' :: w))) = u ++ subToNl key w) ∧
    (∀ (mainP tp fn c : Str),
        abspath tp = abspath mainP →
        cleanupContent mainP tp fn c = c) ∧
    (∀ (fs : FS) (mainP baseF content : Str),
        lookupFs fs mainP = some content →
        (∀ c ∈ cmdNames, findMatches c content = []) →
        resolveText fs mainP baseF = content) ∧
    ¬ (str "\\documentclass" <:+:
        resolveText exFsC4r (str "/d/main.tex") (str "/d")) := by
  refine ⟨?_, ?_, ?_, ?_, by decide⟩
  · intro key s h
    exact subToNlAux_id key s.length s le_rfl h
  · intro key u v w hv hu
    exact subToNlAux_strip_first key v w hv u
      (u ++ (key ++ (v ++ '\n' :: w))).length le_rfl hu
  · intro mainP tp fn c h
    simp only [cleanupContent]
    rw [if_pos h]
  · intro fs mainP baseF content hl hall
    exact resolveText_root_verbatim fs mainP baseF content hl hall

/-- Witness for the amended C4: retention without a trailing newline,
stripping through the following newline with the line prefix kept, the
cleanup step skipping a target equal to the root, and a directive-free
root preserved verbatim. -/
theorem c4_structural_strip_amended_witness :
    subToNl (str "\\maketitle") (str "AB\n") = str "AB\n" ∧
    subToNl (str "\\maketitle")
        (str "A" ++ (str "\\maketitle" ++ (str "x" ++ '\n' :: str "B"))) =
      str "A" ++ subToNl (str "\\maketitle") (str "B") ∧
    cleanupContent (str "/m.tex") (str "/m.tex") (str "f.tex") (str "hello") =
      str "hello" ∧
    resolveText exFsC4w (str "/m.tex") (str "/") =
      str "\\documentclass\x7ba\x7d\nhi" :=
  ⟨c4_structural_strip_amended.1 (str "\\maketitle") (str "AB\n") (by decide),
   c4_structural_strip_amended.2.1 (str "\\maketitle") (str "A") (str "x")
     (str "B") (by decide) (by decide),
   c4_structural_strip_amended.2.2.1 (str "/m.tex") (str "/m.tex")
     (str "f.tex") (str "hello") (by decide),
   c4_structural_strip_amended.2.2.2.1 exFsC4w (str "/m.tex") (str "/")
     (str "\\documentclass\x7ba\x7d\nhi") (by decide) (by decide)⟩

/-- Claim C5 (confirmed): when a directive's derived target exists at
neither candidate location, the directive occurrence is left unexpanded
(the text is not spliced for that match), a diagnostic naming the missing
file and the searched path is emitted, and the remaining matches keep
being processed; on the concrete filesystem the literal
`\input\x7bmissing\x7d` survives and the diagnostic names `missing.tex`
and `/d/missing.tex`. -/
theorem c5_missing_target_nonfatal :
    (∀ (rec : List Str → Str → Res) (fs : FS) (mainP baseF : Str)
        (V : List Str) (curDir result : Str) (st en : Nat) (arg : Str)
        (rest : List (Nat × Nat × Str)),
        existsFs fs (resolveTarget fs baseF curDir (deriveFilename arg)) = false →
        processOps rec fs mainP baseF V curDir result ((st, en, arg) :: rest) =
          ⟨(processOps rec fs mainP baseF V curDir result rest).text,
           Event.warnMissing (deriveFilename arg)
               (resolveTarget fs baseF curDir (deriveFilename arg)) ::
             (processOps rec fs mainP baseF V curDir result rest).trace⟩) ∧
    resolveDoc exFsC5 (str "/d/main.tex") (str "/d") =
      ⟨str "A \\input\x7bmissing\x7d B",
       [Event.fsRead (str "/d/main.tex"),
        Event.warnMissing (str "missing.tex") (str "/d/missing.tex")]⟩ := by
  constructor
  · intro rec fs mainP baseF V curDir result st en arg rest hex
    simp only [processOps]
    rw [if_neg (by simp [hex])]
  · decide

/-- Witness for C5 at a concrete missing-target directive. -/
theorem c5_missing_target_nonfatal_witness :
    processOps recEmpty [] (str "/m.tex") (str "/d") [] (str "/d")
        (str "R") [(0, 1, str "zz")] =
      ⟨(processOps recEmpty [] (str "/m.tex") (str "/d") [] (str "/d")
          (str "R") []).text,
       Event.warnMissing (deriveFilename (str "zz"))
           (resolveTarget [] (str "/d") (str "/d") (deriveFilename (str "zz"))) ::
         (processOps recEmpty [] (str "/m.tex") (str "/d") [] (str "/d")
           (str "R") []).trace⟩ :=
  c5_missing_target_nonfatal.1 recEmpty [] (str "/m.tex") (str "/d") []
    (str "/d") (str "R") 0 1 (str "zz") [] (by decide)

/-- Counterexample to claim C6: in the acyclic filesystem `exFsC6` the
fragment `c.tex` is reachable and its content `CCC` appears twice — once
per inclusion directive — not exactly once. -/
theorem c6_exactly_once_counterexample :
    ¬ countOcc (str "CCC")
        (resolveText exFsC6 (str "/d/main.tex") (str "/d")) = 1 ∧
    countOcc (str "CCC")
        (resolveText exFsC6 (str "/d/main.tex") (str "/d")) = 2 := by
  constructor
  · decide
  · decide

/-- Claim C6 as amended: every resolving non-root directive occurrence
whose recursed content is non-empty after stripping and trimming splices
that content wrapped between the begin/end provenance markers bearing the
derived filename, and in an acyclic graph each reachable fragment
contributes one such wrapped block per directive occurrence that resolves
to it (exactly once when it is included exactly once). -/
theorem c6_provenance_wrapping_amended :
    (∀ (rec : List Str → Str → Res) (fs : FS) (mainP baseF : Str)
        (V : List Str) (curDir result : Str) (st en : Nat) (arg : Str)
        (rest : List (Nat × Nat × Str)),
        existsFs fs (resolveTarget fs baseF curDir (deriveFilename arg)) = true →
        abspath (resolveTarget fs baseF curDir (deriveFilename arg)) ≠
          abspath mainP →
        pyStrip (stripStructural
            (rec V (resolveTarget fs baseF curDir (deriveFilename arg))).text) ≠
          [] →
        processOps rec fs mainP baseF V curDir result ((st, en, arg) :: rest) =
          ⟨(processOps rec fs mainP baseF V curDir
              (splice result st en
                (wrapInclude (deriveFilename arg)
                  (pyStrip (stripStructural
                    (rec V (resolveTarget fs baseF curDir
                      (deriveFilename arg))).text))))
              rest).text,
           Event.procInclude (deriveFilename arg)
               (resolveTarget fs baseF curDir (deriveFilename arg)) ::
             ((rec V (resolveTarget fs baseF curDir (deriveFilename arg))).trace ++
              (processOps rec fs mainP baseF V curDir
                (splice result st en
                  (wrapInclude (deriveFilename arg)
                    (pyStrip (stripStructural
                      (rec V (resolveTarget fs baseF curDir
                        (deriveFilename arg))).text))))
                rest).trace)⟩) ∧
    countOcc (str "% ========== Included from: c.tex ==========")
        (resolveText exFsC6s (str "/d/main.tex") (str "/d")) = 1 ∧
    countOcc (str "% ========== End of: c.tex ==========")
        (resolveText exFsC6s (str "/d/main.tex") (str "/d")) = 1 ∧
    countOcc (str "CCC")
        (resolveText exFsC6s (str "/d/main.tex") (str "/d")) = 1 := by
  refine ⟨?_, by decide, by decide, by decide⟩
  · intro rec fs mainP baseF V curDir result st en arg rest hex hmain hne
    simp only [processOps]
    rw [if_pos hex]
    simp only [cleanupContent]
    rw [if_neg hmain, if_neg hne]

/-- Witness for the amended C6 at a concrete resolving directive. -/
theorem c6_provenance_wrapping_amended_witness :
    processOps recBody exFsT (str "/d/m.tex") (str "/d") [] (str "/d")
        (str "R") [(0, 1, str "t")] =
      ⟨(processOps recBody exFsT (str "/d/m.tex") (str "/d") [] (str "/d")
          (splice (str "R") 0 1
            (wrapInclude (deriveFilename (str "t"))
              (pyStrip (stripStructural
                (recBody [] (resolveTarget exFsT (str "/d") (str "/d")
                  (deriveFilename (str "t")))).text)))) []).text,
       Event.procInclude (deriveFilename (str "t"))
           (resolveTarget exFsT (str "/d") (str "/d") (deriveFilename (str "t"))) ::
         ((recBody [] (resolveTarget exFsT (str "/d") (str "/d")
             (deriveFilename (str "t")))).trace ++
          (processOps recBody exFsT (str "/d/m.tex") (str "/d") [] (str "/d")
            (splice (str "R") 0 1
              (wrapInclude (deriveFilename (str "t"))
                (pyStrip (stripStructural
                  (recBody [] (resolveTarget exFsT (str "/d") (str "/d")
                    (deriveFilename (str "t")))).text)))) []).trace)⟩ :=
  c6_provenance_wrapping_amended.1 recBody exFsT (str "/d/m.tex") (str "/d")
    [] (str "/d") (str "R") 0 1 (str "t") [] (by decide) (by decide) (by decide)

/-- Claim C7 (confirmed): the `.tex` suffix is appended exactly when the
argument lacks it, so an argument and the same argument with `.tex`
appended derive the same filename, and the two variants of the suffix
scenario produce identical merged output. -/
theorem c7_tex_suffix_equivalence :
    (∀ fn : Str, ¬ (str ".tex" <:+ fn) →
        ensureTex fn = ensureTex (fn ++ str ".tex")) ∧
    resolveText exFsC7a (str "/d/main.tex") (str "/d") =
      resolveText exFsC7b (str "/d/main.tex") (str "/d") ∧
    deriveFilename (str "sectionA") = deriveFilename (str "sectionA.tex") := by
  refine ⟨?_, by decide, by decide⟩
  · intro fn h
    unfold ensureTex
    rw [if_neg h, if_pos (List.suffix_append fn (str ".tex"))]

/-- Witness for C7 at the claim's concrete argument. -/
theorem c7_tex_suffix_equivalence_witness :
    ensureTex (str "sectionA") = ensureTex (str "sectionA" ++ str ".tex") :=
  c7_tex_suffix_equivalence.1 (str "sectionA") (by decide)

/-- Claim C8 (confirmed): the resolver is a pure function of the
filesystem, root path and base directory — repeated runs on an unchanged
filesystem are byte-identical by construction — and its effect trace
contains no filesystem write at any input. -/
theorem c8_pure_and_write_free :
    (∀ (fs : FS) (mainP baseF : Str) (V : List Str) (p : Str),
        ((process_tex_recursively fs mainP baseF V p).trace.filter
          Event.isWrite) = []) ∧
    (∀ (fs : FS) (mainP baseF : Str),
        resolveText fs mainP baseF = resolveText fs mainP baseF) := by
  constructor
  · intro fs mainP baseF V p
    exact resolveFuel_filter_write (fs.length + 1) fs mainP baseF V p
  · intro fs mainP baseF
    rfl

/-- Claim C9 (confirmed): the directive patterns require at least one
non-closing-brace character between the braces, so no produced match has
an empty argument, and a literal `\input\x7b\x7d` stays verbatim in the
output with no diagnostic emitted for it. -/
theorem c9_empty_argument_never_matches :
    (∀ (cmd : Str) (gas : Nat) (s : Str) (i : Nat),
        (findMatchesAux cmd gas s i).all (fun m => !m.2.2.isEmpty) = true) ∧
    resolveDoc exFsC9 (str "/d/main.tex") (str "/d") =
      ⟨str "A\\input\x7b\x7dB", [Event.fsRead (str "/d/main.tex")]⟩ :=
  ⟨fun cmd gas s i => findMatchesAux_args_nonempty cmd gas s i, by decide⟩

/-- Claim C10 (confirmed): the suffix test is an exact, case-sensitive
check for the four characters `.tex` at the end of the argument, so
`figure.png` becomes `figure.png.tex` and `CHAPTER.TEX` becomes
`CHAPTER.TEX.tex` — the argument as written is never searched for. -/
theorem c10_suffix_check_exact_case_sensitive :
    (∀ fn : Str, ¬ (str ".tex" <:+ fn) → ensureTex fn = fn ++ str ".tex") ∧
    deriveFilename (str "figure.png") = str "figure.png.tex" ∧
    deriveFilename (str "CHAPTER.TEX") = str "CHAPTER.TEX.tex" := by
  refine ⟨?_, by decide, by decide⟩
  · intro fn h
    unfold ensureTex
    rw [if_neg h]

/-- Witness for C10 at a non-`.tex` extension. -/
theorem c10_suffix_check_exact_case_sensitive_witness :
    ensureTex (str "figure.png") = str "figure.png" ++ str ".tex" :=
  c10_suffix_check_exact_case_sensitive.1 (str "figure.png") (by decide)
